import Mathlib

/-!
Verification of the job-application tracker backend (src/server.js) against its
natural-language specification.  The relevant JavaScript functions and route
handlers are shallowly embedded as executable Lean definitions:

* strings are Lean strings (the inputs of interest are handled character by
  character, mirroring the JavaScript regex replacements);
* a stored MongoDB document is a record of optional string fields
  (a missing field is `none`);
* the mutable collection is a `List` of documents threaded through each
  operation, and WebSocket broadcasts are returned as an explicit event list;
* scanning loops (global regex replacement, regex parsing and matching) are
  written with an explicit fuel argument so that every definition is
  structurally recursive and kernel-executable; the fuel chosen by the
  wrappers is large enough for every run that the theorems below depend on.

Note on the semantics mirrored here: the character class for a regex
whitespace token is modelled by the ASCII whitespace characters, and case
folding is ASCII case folding, which agrees with JavaScript on all the
character data the theorems touch.  The duplicate-query patterns built by
the create route are executed by the MongoDB PCRE engine, so the end anchor
matches at the end of the stored text and also immediately before one
newline terminating it; the matcher below models that rule.
-/

namespace JobTracker

/-- JavaScript whitespace (the characters matched by a regex whitespace class
and removed by trim), restricted to the ASCII range. -/
def isJsWs (c : Char) : Bool :=
  c == ' ' || c == '\t' || c == '\n' || c == '\r' || c == '\x0b' || c == '\x0c'

/-- List-level trim, dropping leading and trailing JavaScript whitespace,
embedding the trim calls in formatJobDescription and validateJobData. -/
def jsTrimL (cs : List Char) : List Char :=
  ((cs.dropWhile isJsWs).reverse.dropWhile isJsWs).reverse

/-- String-level trim. -/
def jsTrim (s : String) : String :=
  String.mk (jsTrimL s.data)

/-- Embeds the global whitespace-collapsing replacement in
formatJobDescription: every maximal whitespace run becomes one space.
The boolean flag records whether the previous character was whitespace. -/
def collapseWsAux : Bool → List Char → List Char
  | _, [] => []
  | inWs, c :: rest =>
    if isJsWs c then
      if inWs then collapseWsAux true rest
      else ' ' :: collapseWsAux true rest
    else c :: collapseWsAux false rest

/-- The six section keywords of the formatJobDescription alternation, in the
order they appear in the source pattern. -/
def sectionKeywords : List (List Char) :=
  [String.data "responsibilities", String.data "requirements",
   String.data "qualifications", String.data "skills",
   String.data "benefits", String.data "about"]

/-- Case-insensitive test that the (lowercase) keyword is an initial segment
of the character list, as the case-insensitive regex flag would match it. -/
def ciKeywordHead : List Char → List Char → Bool
  | [], _ => true
  | _ :: _, [] => false
  | k :: ks, c :: cs => (c.toLower == k) && ciKeywordHead ks cs

/-- First keyword of the alternation matching at the head of the list,
returning the length of the matched text. -/
def firstKwLen (kws : List (List Char)) (cs : List Char) : Option Nat :=
  match kws with
  | [] => none
  | k :: rest => if ciKeywordHead k cs then some k.length else firstKwLen rest cs

/-- Embeds the section-header replacement in formatJobDescription:
a double line break is inserted immediately before every case-insensitive
occurrence of a section keyword (a plain substring match, exactly as the
source pattern is written), scanning left to right and continuing after each
match.  The fuel bounds the number of scanning steps; each step consumes at
least one character, so the wrapper passes the list length plus one. -/
def insertBreaksF : Nat → List Char → List Char
  | 0, cs => cs
  | _ + 1, [] => []
  | fuel + 1, c :: rest =>
    match firstKwLen sectionKeywords (c :: rest) with
    | some n => '\n' :: '\n' :: ((c :: rest).take n ++ insertBreaksF fuel ((c :: rest).drop n))
    | none => c :: insertBreaksF fuel rest

/-- The bullet glyph variants normalized by formatJobDescription. -/
def isBulletGlyph (c : Char) : Bool :=
  c == '•' || c == '·' || c == '▪' || c == '▫' || c == '◦' || c == '‣' || c == '⁃'

/-- Embeds the bullet-glyph replacement: every glyph variant becomes the
canonical bullet. -/
def normalizeBulletGlyphs (cs : List Char) : List Char :=
  cs.map (fun c => if isBulletGlyph c then '•' else c)

/-- Embeds the dash-marker replacement: a dash or asterisk followed by one
whitespace character becomes a bullet and a space, scanning left to right
without overlap. -/
def dashToBullet : List Char → List Char
  | [] => []
  | [c] => [c]
  | c :: d :: rest =>
    if (c == '-' || c == '*') && isJsWs d then '•' :: ' ' :: dashToBullet rest
    else c :: dashToBullet (d :: rest)

/-- Embeds the bullet-spacing replacement: every bullet is rewritten to a
line break, the bullet and a trailing space. -/
def bulletSpacing (cs : List Char) : List Char :=
  (cs.map (fun c => if c == '•' then ['\n', '•', ' '] else [c])).flatten

/-- Number of characters a triple-line-break match consumes: the length of
the whitespace run up to and including its last newline.  The JavaScript
pattern of a newline, optional whitespace, a newline, optional whitespace and
a newline, matched greedily with backtracking, consumes exactly this span. -/
def tripleBreakSpan (cs : List Char) : Nat :=
  let run := cs.takeWhile isJsWs
  run.length - (run.reverse.takeWhile (fun d => !(d == '\n'))).length

/-- Embeds the line-break-collapsing replacement: a whitespace run that
starts at a newline and contains at least three newlines is replaced by
exactly two newlines, up to the last newline of the run. -/
def collapseBreaksF : Nat → List Char → List Char
  | 0, cs => cs
  | _ + 1, [] => []
  | fuel + 1, c :: rest =>
    if c == '\n' then
      let run := (c :: rest).takeWhile isJsWs
      if 3 ≤ run.count '\n' then
        '\n' :: '\n' :: collapseBreaksF fuel ((c :: rest).drop (tripleBreakSpan (c :: rest)))
      else c :: collapseBreaksF fuel rest
    else c :: collapseBreaksF fuel rest

/-- Capitalization used for section headers: first character uppercased, the
rest lowercased, as the replacement callback in the source computes it. -/
def capitalizeWord : List Char → List Char
  | [] => []
  | c :: rest => c.toUpper :: rest.map Char.toLower

/-- Embeds the header-capitalization replacement: a section keyword directly
after a double line break is re-title-cased, scanning left to right. -/
def capitalizeHeadersF : Nat → List Char → List Char
  | 0, cs => cs
  | _ + 1, [] => []
  | _ + 1, [c] => [c]
  | fuel + 1, c1 :: c2 :: rest =>
    if c1 == '\n' && c2 == '\n' then
      match firstKwLen sectionKeywords rest with
      | some n => '\n' :: '\n' :: (capitalizeWord (rest.take n) ++ capitalizeHeadersF fuel (rest.drop n))
      | none => c1 :: capitalizeHeadersF fuel (c2 :: rest)
    else c1 :: capitalizeHeadersF fuel (c2 :: rest)

/-- Embedding of formatJobDescription: the empty-input guard followed by the
replacement chain in source order, ending with a trim. -/
def formatJobDescription (description : String) : String :=
  if description == "" then ""
  else
    let s1 := collapseWsAux false description.data
    let s2 := jsTrimL s1
    let s3 := insertBreaksF (s2.length + 1) s2
    let s4 := normalizeBulletGlyphs s3
    let s5 := dashToBullet s4
    let s6 := bulletSpacing s5
    let s7 := collapseBreaksF (s6.length + 1) s6
    let s8 := capitalizeHeadersF (s7.length + 1) s7
    String.mk (jsTrimL s8)

/-- An incoming request body for create, with the fields validateJobData
reads; a field the client did not send is `none`. -/
structure JobPayload where
  company : Option String := none
  position : Option String := none
  location : Option String := none
  salary : Option String := none
  jobUrl : Option String := none
  description : Option String := none
  appliedDate : Option String := none
  status : Option String := none
  notes : Option String := none
deriving DecidableEq

/-- The sanitized record built by validateJobData: every field is a string. -/
structure SanitizedJob where
  company : String := ""
  position : String := ""
  location : String := ""
  salary : String := ""
  jobUrl : String := ""
  description : String := ""
  appliedDate : String := ""
  status : String := ""
  notes : String := ""
deriving DecidableEq

/-- Embedding of validateJobData.  The current date string is passed in as
`today` (the source computes it from the clock).  An absent field defaults to
the empty string before trimming; an absent or empty appliedDate defaults to
`today`; an absent or empty status defaults to "Applied"; the description is
normalized; the validation failure is raised exactly when the trimmed company
and the trimmed position are both empty. -/
def validateJobData (today : String) (jobData : JobPayload) : Except String SanitizedJob :=
  let sanitized : SanitizedJob := {
    company := jsTrim (jobData.company.getD "")
    position := jsTrim (jobData.position.getD "")
    location := jsTrim (jobData.location.getD "")
    salary := jsTrim (jobData.salary.getD "")
    jobUrl := jsTrim (jobData.jobUrl.getD "")
    description := formatJobDescription (jobData.description.getD "")
    appliedDate := match jobData.appliedDate with
      | some d => if d == "" then today else d
      | none => today
    status := match jobData.status with
      | some st => if st == "" then "Applied" else st
      | none => "Applied"
    notes := jsTrim (jobData.notes.getD "") }
  if sanitized.company == "" && sanitized.position == "" then
    Except.error "Missing required fields: company or position"
  else
    Except.ok sanitized

/-- A document of the applications collection; a field a document does not
carry is `none`.  Documents inserted by the create route carry every field;
documents admitted by sync carry whatever the client sent. -/
structure AppDoc where
  id : Option String := none
  company : Option String := none
  position : Option String := none
  location : Option String := none
  salary : Option String := none
  jobUrl : Option String := none
  description : Option String := none
  appliedDate : Option String := none
  status : Option String := none
  notes : Option String := none
  createdAt : Option String := none
  updatedAt : Option String := none
deriving DecidableEq

/-- A WebSocket broadcast message, as the three broadcast calls emit them. -/
inductive BroadcastEvent where
  | newApplication (application : AppDoc)
  | applicationUpdated (application : Option AppDoc)
  | applicationDeleted (applicationId : String)
deriving DecidableEq

/-- The list of id values of a document list, embedding the Set construction
over the id field (membership below is the Set lookup). -/
def idsOf (docs : List AppDoc) : List (Option String) :=
  docs.map AppDoc.id

/-- The applicationsToAdd computation of the sync handler: client records
whose id is not among the store ids.  No other filtering is applied. -/
def syncToAdd (store frontendApplications : List AppDoc) : List AppDoc :=
  frontendApplications.filter (fun a => !((idsOf store).contains a.id))

/-- The insertMany mapping of the sync handler: each admitted record is the
client record with a fresh createdAt spread over it; no other field (in
particular not updatedAt) is touched. -/
def stampCreatedAt (now : String) (docs : List AppDoc) : List AppDoc :=
  docs.map (fun a => { a with createdAt := some now })

/-- Result of the sync route: the records returned to the client, the
records inserted, the reported count, and the store after the call. -/
structure SyncOutcome where
  newApplications : List AppDoc
  inserted : List AppDoc
  syncedCount : Nat
  store : List AppDoc
deriving DecidableEq

/-- Embedding of the sync route handler.  The store is read in full
(the createdAt sort of the source only orders the response list and is
dropped here; every field of this outcome is order-stable under it), client
ids and store ids are collected, the symmetric difference by id is formed,
and the client-only records are bulk inserted with a fresh createdAt when
there is at least one. -/
def syncApplications (store frontendApplications : List AppDoc) (now : String) : SyncOutcome :=
  { newApplications := store.filter (fun a => !((idsOf frontendApplications).contains a.id))
    inserted := stampCreatedAt now (syncToAdd store frontendApplications)
    syncedCount := (syncToAdd store frontendApplications).length
    store := if 0 < (syncToAdd store frontendApplications).length
             then store ++ stampCreatedAt now (syncToAdd store frontendApplications)
             else store }

/-- An update request body: the fields of the object spread into the update
document; a field the client did not send is `none`. -/
structure UpdateBody where
  id : Option String := none
  company : Option String := none
  position : Option String := none
  location : Option String := none
  salary : Option String := none
  jobUrl : Option String := none
  description : Option String := none
  appliedDate : Option String := none
  status : Option String := none
  notes : Option String := none
  createdAt : Option String := none
  updatedAt : Option String := none
deriving DecidableEq

/-- One field of the update-document spread: a field present in the body
overwrites the stored field, an absent one leaves it. -/
def setField (upd old : Option String) : Option String :=
  match upd with
  | some v => some v
  | none => old

/-- The update document applied to one stored document: every body field is
set over the document and updatedAt is always overwritten with the fresh
timestamp (the spread puts updatedAt last). -/
def applyUpdateBody (u : UpdateBody) (now : String) (d : AppDoc) : AppDoc :=
  { id := setField u.id d.id
    company := setField u.company d.company
    position := setField u.position d.position
    location := setField u.location d.location
    salary := setField u.salary d.salary
    jobUrl := setField u.jobUrl d.jobUrl
    description := setField u.description d.description
    appliedDate := setField u.appliedDate d.appliedDate
    status := setField u.status d.status
    notes := setField u.notes d.notes
    createdAt := setField u.createdAt d.createdAt
    updatedAt := some now }

/-- updateOne on the filter of an id equality: the first document whose id
field equals the given string is rewritten; `none` when no document matches
(matchedCount zero). -/
def updateFirst (targetId : String) (u : UpdateBody) (now : String) :
    List AppDoc → Option (List AppDoc)
  | [] => none
  | d :: rest =>
    if d.id == some targetId then some (applyUpdateBody u now d :: rest)
    else
      match updateFirst targetId u now rest with
      | some rest2 => some (d :: rest2)
      | none => none

/-- Result of the update route. -/
inductive UpdateResult where
  | notFound
  | updated (application : Option AppDoc)
deriving DecidableEq

/-- Outcome of the update route: response, store after the call, broadcasts. -/
structure UpdateOutcome where
  result : UpdateResult
  store : List AppDoc
  events : List BroadcastEvent
deriving DecidableEq

/-- Embedding of the update route handler: updateOne on the id, a 404 when
nothing matched, otherwise findOne of the updated document, a broadcast and
the document in the response.  No validation is applied to the body. -/
def updateApplication (targetId : String) (u : UpdateBody) (now : String)
    (store : List AppDoc) : UpdateOutcome :=
  match updateFirst targetId u now store with
  | none => { result := .notFound, store := store, events := [] }
  | some store2 =>
    let updatedApplication := store2.find? (fun d => d.id == some targetId)
    { result := .updated updatedApplication
      store := store2
      events := [.applicationUpdated updatedApplication] }

/-- deleteOne on the filter of an id equality: the first matching document is
removed; `none` when no document matches (deletedCount zero). -/
def deleteFirst (targetId : String) : List AppDoc → Option (List AppDoc)
  | [] => none
  | d :: rest =>
    if d.id == some targetId then some rest
    else
      match deleteFirst targetId rest with
      | some rest2 => some (d :: rest2)
      | none => none

/-- Result of the delete route. -/
inductive DeleteResult where
  | notFound
  | deleted
deriving DecidableEq

/-- Outcome of the delete route. -/
structure DeleteOutcome where
  result : DeleteResult
  store : List AppDoc
  events : List BroadcastEvent
deriving DecidableEq

/-- Embedding of the delete route handler. -/
def deleteApplication (targetId : String) (store : List AppDoc) : DeleteOutcome :=
  match deleteFirst targetId store with
  | none => { result := .notFound, store := store, events := [] }
  | some store2 =>
    { result := .deleted, store := store2, events := [.applicationDeleted targetId] }

/-!
Regular expressions.  The duplicate query of the create route builds
JavaScript regexes by splicing the candidate company and position between the
anchors, with the case-insensitive flag, and MongoDB tests stored string
fields against them.  The constructs relevant to such spliced patterns are
embedded: literals, the dot, escapes, character classes, alternation,
grouping and the three quantifiers, with the anchors as positional atoms.
An invalid pattern (for which the RegExp constructor throws) is a `none`
from the compiler; counted repetition and backreferences are outside the
embedded subset.
-/

/-- Abstract syntax of the embedded regex subset. -/
inductive RE where
  | eps
  | bol
  | eol
  | anyc
  | lit (c : Char)
  | cls (negated : Bool) (items : List (Char × Char))
  | alt (a b : RE)
  | cat (a b : RE)
  | star (a : RE)
  | plus (a : RE)
  | opt (a : RE)
deriving DecidableEq

/-- Quantifier characters. -/
def isQuantChar (c : Char) : Bool :=
  c == '*' || c == '+' || c == '?'

/-- Builds the node for a postfix quantifier. -/
def applyQuant (c : Char) (a : RE) : RE :=
  if c == '*' then .star a
  else if c == '+' then .plus a
  else .opt a

/-- An escape sequence outside a class: the predefined classes keep their
meaning, the common control escapes map to their characters, anything else
is the literal escaped character. -/
def escapeAtom (c : Char) : Option RE :=
  if c == 'd' then some (.cls false [('0', '9')])
  else if c == 'D' then some (.cls true [('0', '9')])
  else if c == 'w' then some (.cls false [('a', 'z'), ('A', 'Z'), ('0', '9'), ('_', '_')])
  else if c == 'W' then some (.cls true [('a', 'z'), ('A', 'Z'), ('0', '9'), ('_', '_')])
  else if c == 's' then some (.cls false [(' ', ' '), ('\t', '\t'), ('\n', '\n'), ('\r', '\r'), ('\x0b', '\x0b'), ('\x0c', '\x0c')])
  else if c == 'S' then some (.cls true [(' ', ' '), ('\t', '\t'), ('\n', '\n'), ('\r', '\r'), ('\x0b', '\x0b'), ('\x0c', '\x0c')])
  else if c == 'n' then some (.lit '\n')
  else if c == 't' then some (.lit '\t')
  else if c == 'r' then some (.lit '\r')
  else if c == 'b' then none
  else if c == 'B' then none
  else some (.lit c)

/-- Items of a bracket class, scanned up to the closing bracket; `none` for
an unterminated class (a RegExp syntax error). -/
def parseClassItems : Nat → List Char → Option (List (Char × Char) × List Char)
  | 0, _ => none
  | _ + 1, [] => none
  | fuel + 1, cs =>
    match cs with
    | [] => none
    | ']' :: r => some ([], r)
    | '\\' :: d :: rest =>
      match parseClassItems fuel rest with
      | some (items, r2) => some ((d, d) :: items, r2)
      | none => none
    | a :: rest =>
      match rest with
      | '-' :: b :: rest2 =>
        if b == ']' then some ([(a, a), ('-', '-')], rest2)
        else
          match parseClassItems fuel rest2 with
          | some (items, r2) => some ((a, b) :: items, r2)
          | none => none
      | _ =>
        match parseClassItems fuel rest with
        | some (items, r2) => some ((a, a) :: items, r2)
        | none => none

/-- Parsing modes of the recursive-descent pattern parser: alternation
level, sequence level, quantified piece, atom. -/
inductive ParseMode where
  | levelAlt
  | levelSeq
  | levelPiece
  | levelAtom
deriving DecidableEq

/-- Recursive-descent parser for the embedded pattern subset, written with a
fuel argument so it is structurally recursive; each nested parse spends one
unit, and the wrapper passes a fuel linear in the pattern length, which
bounds the descent depth.  A `none` is a pattern the RegExp constructor
rejects (unmatched parentheses, a dangling quantifier, an unterminated
class, a trailing backslash). -/
def parseM : Nat → ParseMode → List Char → Option (RE × List Char)
  | 0, _, _ => none
  | fuel + 1, .levelAlt, cs =>
    match parseM fuel .levelSeq cs with
    | none => none
    | some (e, rest) =>
      match rest with
      | '|' :: r2 =>
        match parseM fuel .levelAlt r2 with
        | none => none
        | some (e2, r3) => some (.alt e e2, r3)
      | _ => some (e, rest)
  | fuel + 1, .levelSeq, cs =>
    match cs with
    | [] => some (.eps, [])
    | c :: _ =>
      if c == ')' || c == '|' then some (.eps, cs)
      else
        match parseM fuel .levelPiece cs with
        | none => none
        | some (p, rest) =>
          match parseM fuel .levelSeq rest with
          | none => none
          | some (q, rest2) => some (.cat p q, rest2)
  | fuel + 1, .levelPiece, cs =>
    match parseM fuel .levelAtom cs with
    | none => none
    | some (a, rest) =>
      match rest with
      | [] => some (a, rest)
      | c :: r2 =>
        if isQuantChar c then
          match r2 with
          | '?' :: r3 => some (applyQuant c a, r3)
          | d :: _ => if isQuantChar d then none else some (applyQuant c a, r2)
          | [] => some (applyQuant c a, r2)
        else some (a, rest)
  | fuel + 1, .levelAtom, cs =>
    match cs with
    | [] => none
    | c :: r =>
      if c == '^' then some (.bol, r)
      else if c == '$' then some (.eol, r)
      else if c == '.' then some (.anyc, r)
      else if c == '(' then
        match parseM fuel .levelAlt r with
        | none => none
        | some (e, rest) =>
          match rest with
          | ')' :: r2 => some (e, r2)
          | _ => none
      else if c == ')' then none
      else if c == '|' then none
      else if isQuantChar c then none
      else if c == '[' then
        match r with
        | '^' :: r2 =>
          match parseClassItems (r2.length + 1) r2 with
          | some (items, rest) => some (.cls true items, rest)
          | none => none
        | _ =>
          match parseClassItems (r.length + 1) r with
          | some (items, rest) => some (.cls false items, rest)
          | none => none
      else if c == '\\' then
        match r with
        | [] => none
        | d :: r2 =>
          match escapeAtom d with
          | some a => some (a, r2)
          | none => none
      else some (.lit c, r)

/-- Compiles a full pattern string; the whole input must be consumed. -/
def regexCompile (pattern : String) : Option RE :=
  match parseM (4 * pattern.length + 8) .levelAlt pattern.data with
  | some (e, []) => some e
  | _ => none

/-- Class membership under the case-insensitive flag: the character, its
lowercase or its uppercase form falls in one of the ranges. -/
def classMatches (items : List (Char × Char)) (d : Char) : Bool :=
  items.any (fun r =>
    (decide (r.1 ≤ d) && decide (d ≤ r.2)) ||
    (decide (r.1 ≤ d.toLower) && decide (d.toLower ≤ r.2)) ||
    (decide (r.1 ≤ d.toUpper) && decide (d.toUpper ≤ r.2)))

/-- Concatenation of two position lists keeping the first occurrence of each
position. -/
def dedupMerge (a b : List Nat) : List Nat :=
  a ++ b.filter (fun q => !(a.contains q))

/-- Position-set semantics of the embedded regexes under the
case-insensitive flag: from each start position in `ps`, the set of
positions reachable by matching `e` across the subject `t`.  The start
anchor holds only at position zero; the end anchor follows the PCRE rules
the MongoDB query engine applies to the spliced patterns — the dollar
matches at the end of the subject and also immediately before one newline
that terminates the subject.  A star unrolls one iteration per step, and
the fuel (spent once per node visited) makes the recursion structural; the
wrapper passes a fuel that covers every pattern and subject the theorems
below evaluate or reason about. -/
def adv (t : List Char) : Nat → RE → List Nat → List Nat
  | 0, _, _ => []
  | fuel + 1, e, ps =>
    match e with
    | .eps => ps
    | .bol => ps.filter (fun p => p == 0)
    | .eol => ps.filter (fun p =>
        p == t.length || (p + 1 == t.length && t[p]? == some '\n'))
    | .anyc => ps.filterMap (fun p =>
        match t[p]? with
        | some c => if c == '\n' || c == '\r' then none else some (p + 1)
        | none => none)
    | .lit c => ps.filterMap (fun p =>
        match t[p]? with
        | some d => if d.toLower == c.toLower then some (p + 1) else none
        | none => none)
    | .cls neg items => ps.filterMap (fun p =>
        match t[p]? with
        | some d => if classMatches items d != neg then some (p + 1) else none
        | none => none)
    | .alt a b => dedupMerge (adv t fuel a ps) (adv t fuel b ps)
    | .cat a b => adv t fuel b (adv t fuel a ps)
    | .opt a => dedupMerge ps (adv t fuel a ps)
    | .star a => dedupMerge ps (adv t fuel (.star a) (adv t fuel a ps))
    | .plus a => adv t fuel (.cat a (.star a)) ps

/-- Structural size of a regex, used to budget the matching fuel. -/
def sizeRE : RE → Nat
  | .eps | .bol | .eol | .anyc | .lit _ | .cls _ _ => 1
  | .alt a b | .cat a b => sizeRE a + sizeRE b + 1
  | .star a | .plus a | .opt a => sizeRE a + 1

/-- Matching fuel for a compiled pattern against a subject. -/
def advFuel (e : RE) (t : List Char) : Nat :=
  (sizeRE e + 2) * (t.length + 2) + 8

/-- MongoDB regex test of a stored string field: the pattern may match
anywhere in the subject, so every position is a candidate start. -/
def reTest (e : RE) (s : String) : Bool :=
  !((adv s.data (advFuel e s.data) e (List.range (s.data.length + 1))).isEmpty)

/-- The anchored pattern the create route builds around the candidate text. -/
def anchored (t : String) : String :=
  "^" ++ t ++ "$"

/-- The jobUrl disjunction of the duplicate query: either the stored jobUrl
field equals the candidate string, or (as literally written in the source)
the field simultaneously does not exist and equals the empty string, a
conjunction no document satisfies. -/
def jobUrlClauseMatches (candidateUrl : String) (d : AppDoc) : Bool :=
  (d.jobUrl == some candidateUrl) || ((d.jobUrl == none) && (d.jobUrl == some ""))

/-- One stored document against the three conjuncts of the duplicate query,
given the two compiled regexes: a regex clause on a missing field matches
nothing. -/
def duplicateDocMatches (ec ep : RE) (candidateUrl : String) (d : AppDoc) : Bool :=
  (match d.company with
   | some c => reTest ec c
   | none => false) &&
  (match d.position with
   | some p => reTest ep p
   | none => false) &&
  jobUrlClauseMatches candidateUrl d

/-- The findOne duplicate query of the create route: `none` when the RegExp
constructor throws on either spliced pattern (the route then answers with
the generic failure), otherwise the first matching document if any. -/
def findDuplicate (jobData : SanitizedJob) (store : List AppDoc) : Option (Option AppDoc) :=
  match regexCompile (anchored jobData.company), regexCompile (anchored jobData.position) with
  | some ec, some ep => some (store.find? (duplicateDocMatches ec ep jobData.jobUrl))
  | _, _ => none

/-- One stored document against the duplicate query built from a candidate,
compiling the two patterns as the route does; the per-pair form of the
duplicate detector. -/
def duplicateQueryDecides (jobData : SanitizedJob) (d : AppDoc) : Option Bool :=
  match regexCompile (anchored jobData.company), regexCompile (anchored jobData.position) with
  | some ec, some ep => some (duplicateDocMatches ec ep jobData.jobUrl d)
  | _, _ => none

/-- The document the create route inserts: a fresh id, the sanitized fields,
and fresh createdAt and updatedAt stamps. -/
def newApplicationDoc (uuid now : String) (jobData : SanitizedJob) : AppDoc :=
  { id := some uuid
    company := some jobData.company
    position := some jobData.position
    location := some jobData.location
    salary := some jobData.salary
    jobUrl := some jobData.jobUrl
    description := some jobData.description
    appliedDate := some jobData.appliedDate
    status := some jobData.status
    notes := some jobData.notes
    createdAt := some now
    updatedAt := some now }

/-- Result of the create route: the validation throw and the RegExp throw
are both answered by the catch-all 500 handler, the duplicate hit by the 409
conflict response, success by the 200 response with the record. -/
inductive CreateResult where
  | validationFailure (message : String)
  | serverFailure
  | conflict
  | created (application : AppDoc)
deriving DecidableEq

/-- HTTP status the route answers with for each result. -/
def createStatus : CreateResult → Nat
  | .validationFailure _ => 500
  | .serverFailure => 500
  | .conflict => 409
  | .created _ => 200

/-- Outcome of the create route: response, store after the call, broadcasts. -/
structure CreateOutcome where
  result : CreateResult
  store : List AppDoc
  events : List BroadcastEvent
deriving DecidableEq

/-- Embedding of the create route handler: validate, build the new record,
run the duplicate query, answer 409 on a hit, otherwise insert and
broadcast.  `today` is the calendar date for the appliedDate default, `now`
the timestamp, `uuid` the generated id. -/
def createApplication (today now uuid : String) (body : JobPayload)
    (store : List AppDoc) : CreateOutcome :=
  match validateJobData today body with
  | .error msg => { result := .validationFailure msg, store := store, events := [] }
  | .ok jobData =>
    let newApplication := newApplicationDoc uuid now jobData
    match findDuplicate jobData store with
    | none => { result := .serverFailure, store := store, events := [] }
    | some (some _) => { result := .conflict, store := store, events := [] }
    | some none =>
      { result := .created newApplication
        store := store ++ [newApplication]
        events := [.newApplication newApplication] }

/-!
Specification-level vocabulary.  The next definitions transcribe wording of
the specification (not source code); they exist to state the claims and to
compare the implementation against the specified rules.
-/

/-- Modelled from the spec: the identity-duplicate match rule of the
Duplicate Detector section — case-insensitive equality on company and on
position, and jobUrl values equal as strings or both empty/absent (an
absent text field stands for the empty string). -/
def specIdentityDuplicate (c1 p1 u1 c2 p2 u2 : Option String) : Bool :=
  ((c1.getD "").data.map Char.toLower == (c2.getD "").data.map Char.toLower) &&
  ((p1.getD "").data.map Char.toLower == (p2.getD "").data.map Char.toLower) &&
  ((u1.getD "") == (u2.getD "") || ((u1.getD "") == "" && (u2.getD "") == ""))

/-- Modelled from the spec: the identity-duplicate rule on two documents. -/
def specIdentityDuplicateDoc (a b : AppDoc) : Bool :=
  specIdentityDuplicate a.company a.position a.jobUrl b.company b.position b.jobUrl

/-- Modelled from the spec: the data-model invariant that at least one of
company and position is non-empty (an absent field counts as empty). -/
def companyOrPositionPresent (d : AppDoc) : Bool :=
  !(d.company.getD "" == "") || !(d.position.getD "" == "")

/-- Case-insensitive equality of a stored optional field against a candidate
string; an absent field never compares equal. -/
def ciEqOptStr (o : Option String) (s : String) : Bool :=
  match o with
  | some t => t.data.map Char.toLower == s.data.map Char.toLower
  | none => false

/-- What the anchored pattern spliced from a candidate string decides on a
stored optional field under the PCRE dollar: the stored text equals the
candidate up to ASCII case, or does so after dropping one newline that
terminates the stored text; an absent field never compares equal. -/
def ciEqOrTrailingNewline (o : Option String) (s : String) : Bool :=
  match o with
  | some t =>
    (t.data.map Char.toLower == s.data.map Char.toLower) ||
    (t.data.map Char.toLower == s.data.map Char.toLower ++ ['\n'])
  | none => false

/-- Characters with no special meaning inside a regex pattern: letters,
digits and the space. -/
def regexSafeChar (c : Char) : Bool :=
  c.isAlphanum || c == ' '

/-- A string that can be spliced into a pattern and keep its literal
meaning. -/
def regexSafe (s : String) : Bool :=
  s.data.all regexSafeChar

/-- The compiled form of an anchored literal pattern: one literal node per
character of the spliced text, preceded by the start anchor and followed by
the end anchor and the empty tail (the exact shape the parser builds). -/
def litTailRE : List Char → RE
  | [] => .cat .eol .eps
  | c :: cs => .cat (.lit c) (litTailRE cs)

/-!
Fixtures: the concrete bodies and documents the counterexamples and
witnesses below evaluate the operations on.
-/
/-- A client record, one of a mutually identity-duplicate pair. -/
def clientDupA : AppDoc :=
  { id := some "client-a", company := some "Acme", position := some "Engineer",
    jobUrl := some "" }

/-- A client record duplicating clientDupA under a different id. -/
def clientDupB : AppDoc :=
  { id := some "client-b", company := some "Acme", position := some "Engineer",
    jobUrl := some "" }

/-- A client record carrying its own stale updatedAt. -/
def clientOld : AppDoc :=
  { id := some "client-c", company := some "Acme", position := some "Dev",
    updatedAt := some "2020-01-01T00:00:00.000Z" }

/-- clientOld as sync stores it when admitted at the fixed instant. -/
def clientOldStamped : AppDoc :=
  { id := some "client-c", company := some "Acme", position := some "Dev",
    updatedAt := some "2020-01-01T00:00:00.000Z",
    createdAt := some "2024-03-04T00:00:00.000Z" }

/-- A stored record satisfying the company/position invariant. -/
def docAcmeStored : AppDoc :=
  { id := some "app-1", company := some "Acme", position := some "Engineer",
    jobUrl := some "", createdAt := some "2024-01-01T00:00:00.000Z",
    updatedAt := some "2024-01-01T00:00:00.000Z" }

/-- An update body blanking both company and position. -/
def blankUpdate : UpdateBody :=
  { company := some "", position := some "" }

/-- A create body with safe text fields. -/
def payloadAcme : JobPayload :=
  { company := some "Acme", position := some "Engineer", jobUrl := some "" }

/-- The sanitized record validateJobData builds from payloadAcme on
2024-03-06. -/
def jdAcme : SanitizedJob :=
  { company := "Acme", position := "Engineer", jobUrl := "",
    appliedDate := "2024-03-06", status := "Applied" }

/-- A stored record matching payloadAcme up to letter case. -/
def docAcmeCi : AppDoc :=
  { id := some "stored-4", company := some "ACME", position := some "engineer",
    jobUrl := some "" }

/-- A create body whose company holds a regex quantifier. -/
def payloadAplus : JobPayload :=
  { company := some "A+", position := some "Engineer", jobUrl := some "" }

/-- A stored record whose company the spliced "A+" pattern matches. -/
def docAA : AppDoc :=
  { id := some "stored-1", company := some "AA", position := some "Engineer",
    jobUrl := some "", createdAt := some "2024-01-01T00:00:00.000Z",
    updatedAt := some "2024-01-01T00:00:00.000Z" }

/-- A sanitized candidate whose company holds a regex quantifier. -/
def sjAplus : SanitizedJob :=
  { company := "A+", position := "Engineer", jobUrl := "" }

/-- A sanitized candidate with plain text fields. -/
def sjB : SanitizedJob :=
  { company := "B", position := "P", jobUrl := "" }

/-- A stored record without a jobUrl field. -/
def docBnoUrl : AppDoc :=
  { id := some "stored-3", company := some "B", position := some "P" }

/-- A sanitized candidate with plain safe text fields. -/
def sjAcme : SanitizedJob :=
  { company := "Acme", position := "P", jobUrl := "" }

/-- A stored record whose company text ends in a newline. -/
def docAcmeNl : AppDoc :=
  { id := some "stored-5", company := some "Acme\n", position := some "P",
    jobUrl := some "" }

/-- A stored record identical in identity to the sjAplus candidate. -/
def docAplusStored : AppDoc :=
  { id := some "stored-2", company := some "A+", position := some "Engineer",
    jobUrl := some "", createdAt := some "2024-01-01T00:00:00.000Z",
    updatedAt := some "2024-01-01T00:00:00.000Z" }

/-!
Supporting lemmas.  The next theorems characterize the duplicate query on
regex-safe candidate text: the spliced anchored pattern compiles to a chain
of literal nodes, and that chain matches a subject exactly when the subject
equals the text up to ASCII case.
-/

theorem adv_nil (t : List Char) : ∀ fuel e, adv t fuel e [] = [] := by
  intro fuel
  induction fuel with
  | zero => intro e; rfl
  | succ f ih =>
    intro e
    cases e <;> simp [adv, dedupMerge, ih]

theorem adv_succ_cat (t : List Char) (f : Nat) (a b : RE) (ps : List Nat) :
    adv t (f + 1) (.cat a b) ps = adv t f b (adv t f a ps) := rfl

theorem adv_succ_lit (t : List Char) (f : Nat) (c : Char) (ps : List Nat) :
    adv t (f + 1) (.lit c) ps = ps.filterMap (fun p =>
      match t[p]? with
      | some d => if d.toLower == c.toLower then some (p + 1) else none
      | none => none) := rfl

theorem adv_succ_eol (t : List Char) (f : Nat) (ps : List Nat) :
    adv t (f + 1) .eol ps = ps.filter (fun p =>
      p == t.length || (p + 1 == t.length && t[p]? == some '\n')) := rfl

theorem adv_succ_eps (t : List Char) (f : Nat) (ps : List Nat) :
    adv t (f + 1) .eps ps = ps := rfl

theorem adv_succ_bol (t : List Char) (f : Nat) (ps : List Nat) :
    adv t (f + 1) .bol ps = ps.filter (fun p => p == 0) := rfl

theorem toLower_eq_newline_iff (c : Char) : c.toLower = '\n' ↔ c = '\n' := by
  constructor
  · intro h
    unfold Char.toLower at h
    rw [show (let n := c.toNat;
        if n ≥ 65 ∧ n ≤ 90 then Char.ofNat (n + 32) else c) =
        (if c.toNat ≥ 65 ∧ c.toNat ≤ 90 then Char.ofNat (c.toNat + 32) else c) from rfl] at h
    split at h
    · rename_i hr
      exfalso
      obtain ⟨h1, h2⟩ := hr
      obtain ⟨n, hn⟩ : ∃ n, Char.toNat c = n := ⟨_, rfl⟩
      rw [hn] at h h1 h2
      interval_cases n <;> revert h <;> decide
    · exact h
  · intro h
    subst h
    decide

theorem adv_litTail (t : List Char) (cs : List Char) :
    ∀ (fuel p : Nat), p ≤ t.length → cs.length + 2 ≤ fuel →
    adv t fuel (litTailRE cs) [p] =
      if (t.drop p).map Char.toLower = cs.map Char.toLower then [t.length]
      else if (t.drop p).map Char.toLower = cs.map Char.toLower ++ ['\n'] then [t.length - 1]
      else [] := by
  induction cs with
  | nil =>
    intro fuel p hp hf
    obtain ⟨f, rfl⟩ : ∃ f, fuel = f + 2 := ⟨fuel - 2, by omega⟩
    show adv t (f + 2) (.cat .eol .eps) [p] = _
    rw [adv_succ_cat, adv_succ_eol, adv_succ_eps]
    simp only [List.map_nil, List.nil_append]
    by_cases hpn : p = t.length
    · subst hpn
      simp [List.drop_length]
    · have hlt : p < t.length := by omega
      have hb1 : (p == t.length) = false := by simp [hpn]
      have hget : t[p]? = some t[p] := List.getElem?_eq_getElem hlt
      have hc1 : ¬ (t.drop p).map Char.toLower = ([] : List Char) := by
        rw [List.map_eq_nil_iff, List.drop_eq_nil_iff]
        omega
      rw [if_neg hc1]
      by_cases hp1 : p + 1 = t.length
      · have hdrop : t.drop p = [t[p]] := by
          rw [List.drop_eq_getElem_cons hlt]
          congr 1
          rw [List.drop_eq_nil_iff]
          omega
        by_cases hnl : t[p] = '\n'
        · have hpred : (p == t.length || (p + 1 == t.length && t[p]? == some '\n')) = true := by
            simp [hp1, hget, hnl]
          have hc2 : (t.drop p).map Char.toLower = ['\n'] := by
            rw [hdrop, hnl]
            decide
          rw [if_pos hc2]
          simp only [List.filter_cons, List.filter_nil, hpred, if_true]
          have hpe : p = t.length - 1 := by omega
          rw [hpe]
        · have hpred : (p == t.length || (p + 1 == t.length && t[p]? == some '\n')) = false := by
            simp [hb1, hget, hnl]
          have hc2 : ¬ (t.drop p).map Char.toLower = ['\n'] := by
            rw [hdrop]
            simp only [List.map_cons, List.map_nil, List.cons.injEq, and_true]
            intro hco
            exact hnl ((toLower_eq_newline_iff t[p]).mp hco)
          rw [if_neg hc2]
          simp [List.filter_cons, hpred]
      · have hpred : (p == t.length || (p + 1 == t.length && t[p]? == some '\n')) = false := by
          have hb2 : (p + 1 == t.length) = false := by simp [hp1]
          simp [hb1, hb2]
        have hc2 : ¬ (t.drop p).map Char.toLower = ['\n'] := by
          intro hco
          have hlen := congrArg List.length hco
          simp only [List.length_map, List.length_drop, List.length_cons,
            List.length_nil] at hlen
          omega
        rw [if_neg hc2]
        simp [List.filter_cons, hpred]
  | cons c cs ih =>
    intro fuel p hp hf
    obtain ⟨f, rfl⟩ : ∃ f, fuel = f + 2 := ⟨fuel - 2, by omega⟩
    show adv t (f + 2) (.cat (.lit c) (litTailRE cs)) [p] = _
    rw [adv_succ_cat, adv_succ_lit]
    by_cases hlt : p < t.length
    · have hget : t[p]? = some t[p] := List.getElem?_eq_getElem hlt
      by_cases hceq : t[p].toLower = c.toLower
      · have hstep : List.filterMap (fun p =>
            match t[p]? with
            | some d => if d.toLower == c.toLower then some (p + 1) else none
            | none => none) [p] = [p + 1] := by
          simp [List.filterMap_cons, hget, hceq]
        rw [hstep, ih (f + 1) (p + 1) (by omega) (by simp at hf ⊢; omega)]
        have hA : ((t.drop p).map Char.toLower = (c :: cs).map Char.toLower) ↔
            ((t.drop (p + 1)).map Char.toLower = cs.map Char.toLower) := by
          rw [List.drop_eq_getElem_cons hlt]
          simp only [List.map_cons, List.cons.injEq, hceq, true_and]
        have hB : ((t.drop p).map Char.toLower = (c :: cs).map Char.toLower ++ ['\n']) ↔
            ((t.drop (p + 1)).map Char.toLower = cs.map Char.toLower ++ ['\n']) := by
          rw [List.drop_eq_getElem_cons hlt]
          simp only [List.map_cons, List.cons_append, List.cons.injEq, hceq, true_and]
        by_cases h1 : (t.drop (p + 1)).map Char.toLower = cs.map Char.toLower
        · rw [if_pos h1, if_pos (hA.mpr h1)]
        · rw [if_neg h1, if_neg (fun hh => h1 (hA.mp hh))]
          by_cases h2 : (t.drop (p + 1)).map Char.toLower = cs.map Char.toLower ++ ['\n']
          · rw [if_pos h2, if_pos (hB.mpr h2)]
          · rw [if_neg h2, if_neg (fun hh => h2 (hB.mp hh))]
      · have hstep : List.filterMap (fun p =>
            match t[p]? with
            | some d => if d.toLower == c.toLower then some (p + 1) else none
            | none => none) [p] = [] := by
          simp [List.filterMap_cons, hget, hceq]
        rw [hstep, adv_nil]
        have hc1 : ¬ ((t.drop p).map Char.toLower = (c :: cs).map Char.toLower) := by
          intro hco
          rw [List.drop_eq_getElem_cons hlt] at hco
          simp only [List.map_cons, List.cons.injEq] at hco
          exact hceq hco.1
        have hc2 : ¬ ((t.drop p).map Char.toLower = (c :: cs).map Char.toLower ++ ['\n']) := by
          intro hco
          rw [List.drop_eq_getElem_cons hlt] at hco
          simp only [List.map_cons, List.cons_append, List.cons.injEq] at hco
          exact hceq hco.1
        rw [if_neg hc1, if_neg hc2]
    · have hget : t[p]? = none := by
        rw [List.getElem?_eq_none_iff]
        omega
      have hstep : List.filterMap (fun p =>
          match t[p]? with
          | some d => if d.toLower == c.toLower then some (p + 1) else none
          | none => none) [p] = [] := by
        simp [List.filterMap_cons, hget]
      rw [hstep, adv_nil]
      have hdrop : t.drop p = [] := by
        rw [List.drop_eq_nil_iff]
        omega
      have hc1 : ¬ ((t.drop p).map Char.toLower = (c :: cs).map Char.toLower) := by
        rw [hdrop]
        simp
      have hc2 : ¬ ((t.drop p).map Char.toLower = (c :: cs).map Char.toLower ++ ['\n']) := by
        rw [hdrop]
        simp
      rw [if_neg hc1, if_neg hc2]

theorem range_filter_zero (n : Nat) :
    (List.range (n + 1)).filter (fun p => p == 0) = [0] := by
  rw [List.range_succ_eq_map]
  simp only [List.filter_cons, beq_self_eq_true, if_true]
  have : ((List.range n).map Nat.succ).filter (fun p => p == 0) = [] := by
    apply List.filter_eq_nil_iff.mpr
    intro a ha
    obtain ⟨b, _, rfl⟩ := List.mem_map.mp ha
    simp
  simp [this]

theorem sizeRE_litTail (cs : List Char) : sizeRE (litTailRE cs) = 2 * cs.length + 3 := by
  induction cs with
  | nil => rfl
  | cons c cs ih =>
    show sizeRE (.cat (.lit c) (litTailRE cs)) = _
    simp [sizeRE, ih]
    omega

/-- The anchored literal chain matches a subject exactly when the subject
equals the literal text up to case, or does so after one terminating
newline of the subject is dropped (the PCRE dollar). -/
theorem reTest_literal (cs : List Char) (s : String) :
    reTest (.cat .bol (litTailRE cs)) s =
      ((s.data.map Char.toLower == cs.map Char.toLower) ||
       (s.data.map Char.toLower == cs.map Char.toLower ++ ['\n'])) := by
  unfold reTest
  set t := s.data with ht
  have hsize : sizeRE (.cat .bol (litTailRE cs)) = 2 * cs.length + 5 := by
    simp [sizeRE, sizeRE_litTail]
    omega
  have hfuel : cs.length + 4 ≤ advFuel (.cat .bol (litTailRE cs)) t := by
    unfold advFuel
    rw [hsize, show 2 * cs.length + 5 + 2 = 2 * cs.length + 7 from by omega]
    have h1 : 2 * cs.length + 7 ≤ (2 * cs.length + 7) * (t.length + 2) :=
      Nat.le_mul_of_pos_right _ (by omega)
    omega
  obtain ⟨f, hf⟩ : ∃ f, advFuel (.cat .bol (litTailRE cs)) t = f + 2 :=
    ⟨advFuel (.cat .bol (litTailRE cs)) t - 2, by omega⟩
  rw [hf, adv_succ_cat, adv_succ_bol, range_filter_zero]
  rw [adv_litTail t cs (f + 1) 0 (by omega) (by omega)]
  by_cases h1 : (t.drop 0).map Char.toLower = cs.map Char.toLower
  · rw [if_pos h1]
    simp only [List.drop_zero] at h1
    simp [h1]
  · rw [if_neg h1]
    simp only [List.drop_zero] at h1
    by_cases h2 : (t.drop 0).map Char.toLower = cs.map Char.toLower ++ ['\n']
    · rw [if_pos h2]
      simp only [List.drop_zero] at h2
      simp [h1, h2]
    · rw [if_neg h2]
      simp only [List.drop_zero] at h2
      simp [h1, h2]

theorem regexSafeChar_not_special (c : Char) (h : regexSafeChar c = true) :
    c ≠ '^' ∧ c ≠ '$' ∧ c ≠ '.' ∧ c ≠ '(' ∧ c ≠ ')' ∧ c ≠ '|' ∧
    c ≠ '*' ∧ c ≠ '+' ∧ c ≠ '?' ∧ c ≠ '[' ∧ c ≠ '\\' := by
  refine ⟨?_, ?_, ?_, ?_, ?_, ?_, ?_, ?_, ?_, ?_, ?_⟩ <;>
    (intro heq; subst heq; revert h; decide)

theorem notQuant_of_safe (c : Char) (h : regexSafeChar c = true) :
    isQuantChar c = false := by
  obtain ⟨-, -, -, -, -, -, h7, h8, h9, -, -⟩ := regexSafeChar_not_special c h
  simp [isQuantChar, h7, h8, h9]

theorem parseM_alt_step (f : Nat) (cs : List Char) :
    parseM (f + 1) .levelAlt cs =
      (match parseM f .levelSeq cs with
       | none => none
       | some (e, rest) =>
         match rest with
         | '|' :: r2 =>
           match parseM f .levelAlt r2 with
           | none => none
           | some (e2, r3) => some (.alt e e2, r3)
         | _ => some (e, rest)) := rfl

theorem parseM_seq_step (f : Nat) (c : Char) (rest : List Char) :
    parseM (f + 1) .levelSeq (c :: rest) =
      (if c == ')' || c == '|' then some (.eps, c :: rest)
       else
         match parseM f .levelPiece (c :: rest) with
         | none => none
         | some (p, rest1) =>
           match parseM f .levelSeq rest1 with
           | none => none
           | some (q, rest2) => some (.cat p q, rest2)) := rfl

theorem parseM_piece_step (f : Nat) (cs : List Char) :
    parseM (f + 1) .levelPiece cs =
      (match parseM f .levelAtom cs with
       | none => none
       | some (a, rest) =>
         match rest with
         | [] => some (a, rest)
         | c :: r2 =>
           if isQuantChar c then
             match r2 with
             | '?' :: r3 => some (applyQuant c a, r3)
             | d :: _ => if isQuantChar d then none else some (applyQuant c a, r2)
             | [] => some (applyQuant c a, r2)
           else some (a, rest)) := rfl

/-- A safe character parses as a literal atom. -/
theorem parseM_atom_safe (g : Nat) (c : Char) (r : List Char)
    (hsafe : regexSafeChar c = true) :
    parseM (g + 1) .levelAtom (c :: r) = some (.lit c, r) := by
  obtain ⟨h1, h2, h3, h4, h5, h6, -, -, -, h10, h11⟩ := regexSafeChar_not_special c hsafe
  have hq := notQuant_of_safe c hsafe
  have b1 : (c == '^') = false := by simp [h1]
  have b2 : (c == '$') = false := by simp [h2]
  have b3 : (c == '.') = false := by simp [h3]
  have b4 : (c == '(') = false := by simp [h4]
  have b5 : (c == ')') = false := by simp [h5]
  have b6 : (c == '|') = false := by simp [h6]
  have b10 : (c == '[') = false := by simp [h10]
  have b11 : (c == '\\') = false := by simp [h11]
  simp only [parseM, b1, b2, b3, b4, b5, b6, hq, b10, b11, Bool.false_eq_true, if_false]

/-- Parsing a safe literal text followed by the closing anchor yields the
literal chain and consumes everything. -/
theorem parseM_seq_literal (cs : List Char) :
    ∀ fuel : Nat, cs.all regexSafeChar = true → cs.length + 4 ≤ fuel →
    parseM fuel .levelSeq (cs ++ ['$']) = some (litTailRE cs, []) := by
  induction cs with
  | nil =>
    intro fuel _ hf
    obtain ⟨f, rfl⟩ : ∃ f, fuel = f + 4 := ⟨fuel - 4, by omega⟩
    rfl
  | cons c cs ih =>
    intro fuel hsafe hf
    obtain ⟨f, rfl⟩ : ∃ f, fuel = f + 1 := ⟨fuel - 1, by omega⟩
    have hcsafe : regexSafeChar c = true := by
      simp [List.all_cons] at hsafe
      exact hsafe.1
    have hssafe : cs.all regexSafeChar = true := by
      simp [List.all_cons] at hsafe
      exact List.all_eq_true.mpr (fun x hx => hsafe.2 x hx)
    obtain ⟨-, -, -, -, h5, h6, -, -, -, -, -⟩ := regexSafeChar_not_special c hcsafe
    have hb5 : (c == ')') = false := by simp [h5]
    have hb6 : (c == '|') = false := by simp [h6]
    obtain ⟨g, rfl⟩ : ∃ g, f = g + 2 := ⟨f - 2, by simp at hf; omega⟩
    have hseq := parseM_seq_step (g + 2) c (cs ++ ['$'])
    rw [hb5, hb6] at hseq
    simp only [Bool.or_self, Bool.false_eq_true, if_false] at hseq
    have hatom : parseM (g + 1) .levelAtom (c :: (cs ++ ['$'])) = some (.lit c, cs ++ ['$']) :=
      parseM_atom_safe g c (cs ++ ['$']) hcsafe
    have hpiece := parseM_piece_step (g + 1) (c :: (cs ++ ['$']))
    rw [hatom] at hpiece
    have hpiece2 : parseM (g + 1 + 1) .levelPiece (c :: (cs ++ ['$'])) = some (RE.lit c, cs ++ ['$']) := by
      rw [hpiece]
      cases cs with
      | nil =>
        simp [isQuantChar]
      | cons c2 cs2 =>
        have hq2 : isQuantChar c2 = false := by
          apply notQuant_of_safe
          simp [List.all_cons] at hssafe
          exact hssafe.1
        simp [hq2]
    rw [List.cons_append, hseq, show g + 2 = g + 1 + 1 from rfl, hpiece2]
    dsimp only
    rw [ih (g + 1 + 1) hssafe (by simp at hf; omega)]
    rfl

theorem parseM_atom_caret (f : Nat) (r : List Char) :
    parseM (f + 1) .levelAtom ('^' :: r) = some (.bol, r) := rfl

theorem anchored_data (s : String) :
    (anchored s).data = '^' :: (s.data ++ ['$']) := by
  show (("^" ++ s) ++ "$").data = _
  rw [String.data_append, String.data_append]
  rfl

theorem anchored_length (s : String) :
    (anchored s).length = s.length + 2 := by
  show (anchored s).data.length = s.data.length + 2
  rw [anchored_data]
  simp

/-- Compiling the pattern the create route splices around safe text yields
the anchored literal chain. -/
theorem regexCompile_literal (s : String) (h : regexSafe s = true) :
    regexCompile (anchored s) = some (.cat .bol (litTailRE s.data)) := by
  unfold regexCompile
  rw [anchored_data, anchored_length]
  obtain ⟨n, hn⟩ : ∃ n, s.data.length = n := ⟨_, rfl⟩
  have hfuel : 4 * (s.length + 2) + 8 = (4 * n + 12) + 1 + 1 + 1 + 1 := by
    have hsl : s.length = s.data.length := rfl
    omega
  rw [hfuel]
  have halt := parseM_alt_step ((4 * n + 12) + 1 + 1 + 1) ('^' :: (s.data ++ ['$']))
  have hseq := parseM_seq_step ((4 * n + 12) + 1 + 1) '^' (s.data ++ ['$'])
  have hcar : (('^' == ')') || ('^' == '|')) = false := by decide
  rw [hcar] at hseq
  simp only [Bool.false_eq_true, if_false] at hseq
  have hpiece := parseM_piece_step ((4 * n + 12) + 1) ('^' :: (s.data ++ ['$']))
  have hatom := parseM_atom_caret (4 * n + 12) (s.data ++ ['$'])
  rw [hatom] at hpiece
  have hpiece2 : parseM ((4 * n + 12) + 1 + 1) .levelPiece ('^' :: (s.data ++ ['$'])) =
      some (RE.bol, s.data ++ ['$']) := by
    rw [hpiece]
    cases hd : s.data with
    | nil => simp [isQuantChar]
    | cons d ds =>
      have hdq : isQuantChar d = false := by
        apply notQuant_of_safe
        unfold regexSafe at h
        rw [hd] at h
        simp [List.all_cons] at h
        exact h.1
      simp [hdq]
  have hlit := parseM_seq_literal s.data ((4 * n + 12) + 1 + 1)
    (by unfold regexSafe at h; exact h) (by omega)
  rw [hpiece2] at hseq
  dsimp only at hseq
  rw [hlit] at hseq
  rw [hseq] at halt
  dsimp only at halt
  rw [halt]

theorem jobUrlClauseMatches_eq (url : String) (d : AppDoc) :
    jobUrlClauseMatches url d = (d.jobUrl == some url) := by
  unfold jobUrlClauseMatches
  cases d.jobUrl <;> simp

theorem duplicateDocMatches_literal (jd : SanitizedJob) (d : AppDoc) :
    duplicateDocMatches (.cat .bol (litTailRE jd.company.data))
        (.cat .bol (litTailRE jd.position.data)) jd.jobUrl d =
      (ciEqOrTrailingNewline d.company jd.company &&
        ciEqOrTrailingNewline d.position jd.position &&
        (d.jobUrl == some jd.jobUrl)) := by
  unfold duplicateDocMatches
  rw [jobUrlClauseMatches_eq]
  cases d.company with
  | none => simp [ciEqOrTrailingNewline]
  | some c =>
    cases d.position with
    | none => simp [ciEqOrTrailingNewline, reTest_literal]
    | some p => simp [ciEqOrTrailingNewline, reTest_literal]

theorem findDuplicate_literal (jd : SanitizedJob) (store : List AppDoc)
    (hc : regexSafe jd.company = true) (hp : regexSafe jd.position = true) :
    findDuplicate jd store =
      some (store.find? (fun d =>
        ciEqOrTrailingNewline d.company jd.company &&
          ciEqOrTrailingNewline d.position jd.position &&
          (d.jobUrl == some jd.jobUrl))) := by
  unfold findDuplicate
  rw [regexCompile_literal jd.company hc, regexCompile_literal jd.position hp]
  dsimp only
  congr 1
  have hfun : duplicateDocMatches (.cat .bol (litTailRE jd.company.data))
      (.cat .bol (litTailRE jd.position.data)) jd.jobUrl =
      (fun d => ciEqOrTrailingNewline d.company jd.company &&
        ciEqOrTrailingNewline d.position jd.position &&
        (d.jobUrl == some jd.jobUrl)) := by
    funext d
    rw [duplicateDocMatches_literal]
  rw [hfun]

theorem ciEqOrTrailingNewline_of_ciEq (o : Option String) (s : String)
    (h : ciEqOptStr o s = true) : ciEqOrTrailingNewline o s = true := by
  cases o with
  | none => exact absurd h (by simp [ciEqOptStr])
  | some t =>
    unfold ciEqOrTrailingNewline
    unfold ciEqOptStr at h
    dsimp only at h ⊢
    rw [h]
    rfl

theorem syncApplications_syncedCount (s c : List AppDoc) (now : String) :
    (syncApplications s c now).syncedCount = (syncToAdd s c).length := rfl

theorem syncApplications_store_def (s c : List AppDoc) (now : String) :
    (syncApplications s c now).store =
      if 0 < (syncToAdd s c).length then s ++ stampCreatedAt now (syncToAdd s c) else s := rfl

theorem syncApplications_inserted (s c : List AppDoc) (now : String) :
    (syncApplications s c now).inserted = stampCreatedAt now (syncToAdd s c) := rfl

theorem idsOf_stampCreatedAt (now : String) (l : List AppDoc) :
    idsOf (stampCreatedAt now l) = idsOf l := by
  unfold idsOf stampCreatedAt
  rw [List.map_map]
  apply List.map_congr_left
  intro a _
  rfl

theorem idsOf_append (l1 l2 : List AppDoc) :
    idsOf (l1 ++ l2) = idsOf l1 ++ idsOf l2 := by
  unfold idsOf
  exact List.map_append AppDoc.id l1 l2

theorem mem_idsOf_sync_store (store client : List AppDoc) (now : String) :
    ∀ a ∈ client, a.id ∈ idsOf (syncApplications store client now).store := by
  intro a ha
  rw [syncApplications_store_def]
  by_cases hin : a.id ∈ idsOf store
  · by_cases hpos : 0 < (syncToAdd store client).length
    · rw [if_pos hpos, idsOf_append]
      exact List.mem_append_left _ hin
    · rw [if_neg hpos]
      exact hin
  · have hmemAdd : a ∈ syncToAdd store client := by
      unfold syncToAdd
      apply List.mem_filter.mpr
      refine ⟨ha, ?_⟩
      have : (idsOf store).contains a.id = false := by
        simp [List.contains, List.elem_eq_mem, hin]
      rw [this]
      rfl
    have hpos : 0 < (syncToAdd store client).length := List.length_pos_of_mem hmemAdd
    rw [if_pos hpos, idsOf_append, idsOf_stampCreatedAt]
    exact List.mem_append_right _ (List.mem_map_of_mem AppDoc.id hmemAdd)

theorem syncToAdd_twice_nil (store client : List AppDoc) (now : String) :
    syncToAdd (syncApplications store client now).store client = [] := by
  unfold syncToAdd
  apply List.filter_eq_nil_iff.mpr
  intro a ha
  have := mem_idsOf_sync_store store client now a ha
  simp [List.contains, List.elem_eq_mem, this]

/-- Claim C1, counterexample: sync admits both records of a mutually
identity-duplicate pair of client records with distinct ids against an empty
store; the claimed duplicate filtering (at most one admitted) does not
happen. -/
theorem sync_admits_duplicates_cex :
    specIdentityDuplicateDoc clientDupA clientDupB = true ∧
    clientDupA.id ≠ clientDupB.id ∧
    (syncApplications [] [clientDupA, clientDupB] "2024-03-01T00:00:00.000Z").syncedCount = 2 ∧
    (syncApplications [] [clientDupA, clientDupB] "2024-03-01T00:00:00.000Z").store.length = 2 := by
  decide

/-- Claim C1, amended: the sync admission filter is id membership only; a
client record is never excluded for being an identity-duplicate, so every
client record whose id is absent from the store is admitted (in particular,
all M of M mutually identity-duplicate candidates). -/
theorem sync_admits_every_id_absent_record (store client : List AppDoc) (now : String)
    (h : ∀ a ∈ client, ((idsOf store).contains a.id) = false) :
    (syncApplications store client now).syncedCount = client.length := by
  rw [syncApplications_syncedCount]
  unfold syncToAdd
  have : client.filter (fun a => !((idsOf store).contains a.id)) = client := by
    apply List.filter_eq_self.mpr
    intro a ha
    rw [h a ha]
    rfl
  rw [this]

/-- Witness for the amended Claim C1 at a concrete duplicate pair. -/
theorem sync_admits_every_id_absent_record_witness :
    (syncApplications [] [clientDupA, clientDupB] "2024-03-02T00:00:00.000Z").syncedCount =
      [clientDupA, clientDupB].length :=
  sync_admits_every_id_absent_record [] [clientDupA, clientDupB] "2024-03-02T00:00:00.000Z"
    (by decide)

/-- Claim C2: sync is idempotent — repeating a sync with the unchanged
client snapshot against the store the first run produced reports a synced
count of zero and leaves the store unchanged. -/
theorem sync_idempotent (store client : List AppDoc) (now later : String) :
    (syncApplications (syncApplications store client now).store client later).syncedCount = 0 ∧
    (syncApplications (syncApplications store client now).store client later).store =
      (syncApplications store client now).store := by
  have hnil := syncToAdd_twice_nil store client now
  constructor
  · rw [syncApplications_syncedCount, hnil]
    rfl
  · rw [syncApplications_store_def, hnil]
    simp

/-- Claim C6, counterexample: a record admitted by sync keeps the client
record's updatedAt; only createdAt is freshly stamped. -/
theorem sync_keeps_client_updatedAt_cex :
    (syncApplications [] [clientOld] "2024-03-03T00:00:00.000Z").syncedCount = 1 ∧
    (syncApplications [] [clientOld] "2024-03-03T00:00:00.000Z").inserted.all
      (fun r => r.createdAt == some "2024-03-03T00:00:00.000Z") = true ∧
    (syncApplications [] [clientOld] "2024-03-03T00:00:00.000Z").inserted.all
      (fun r => r.updatedAt == some "2024-03-03T00:00:00.000Z") = false := by
  decide

/-- Claim C6, amended: every record admitted by sync carries a freshly
stamped createdAt, and is otherwise the client record unchanged — in
particular the client updatedAt (trusted or not) is stored as sent. -/
theorem sync_stamps_fresh_createdAt_only (store client : List AppDoc) (now : String)
    (r : AppDoc) (h : r ∈ (syncApplications store client now).inserted) :
    r.createdAt = some now ∧ r ∈ stampCreatedAt now client := by
  rw [syncApplications_inserted] at h
  unfold stampCreatedAt at h ⊢
  obtain ⟨a, ha, rfl⟩ := List.mem_map.mp h
  refine ⟨rfl, ?_⟩
  unfold syncToAdd at ha
  exact List.mem_map_of_mem _ (List.mem_filter.mp ha).1

/-- Witness for the amended Claim C6 at a concrete admitted record. -/
theorem sync_stamps_fresh_createdAt_only_witness :
    clientOldStamped.createdAt = some "2024-03-04T00:00:00.000Z" ∧
    clientOldStamped ∈ stampCreatedAt "2024-03-04T00:00:00.000Z" [clientOld] :=
  sync_stamps_fresh_createdAt_only [] [clientOld] "2024-03-04T00:00:00.000Z"
    clientOldStamped (by decide)

theorem validateJobData_ok_guard (today : String) (p : JobPayload) (jd : SanitizedJob)
    (h : validateJobData today p = .ok jd) :
    (jd.company == "" && jd.position == "") = false := by
  unfold validateJobData at h
  dsimp only at h
  split at h
  · exact absurd h (by simp)
  · rename_i hg
    injection h with h2
    subst h2
    dsimp only
    cases hb : (jsTrim (p.company.getD "") == "" && jsTrim (p.position.getD "") == "")
    · rfl
    · exact absurd hb hg

/-- Claim C3, counterexample: the update route persists a body that blanks
both company and position, so the data-model invariant is not preserved by
every mutating operation. -/
theorem update_can_blank_company_and_position :
    [docAcmeStored].all companyOrPositionPresent = true ∧
    (updateApplication "app-1" blankUpdate "2024-03-05T00:00:00.000Z" [docAcmeStored]).store.all
      companyOrPositionPresent = false := by
  decide

/-- Claim C3, amended: the invariant is enforced on the create path — every
record the create route inserts has a non-empty company or position — while
the update route (counterexample above) and the unvalidated sync admission
do not re-check it. -/
theorem create_inserts_only_invariant_records (today now uuid : String) (body : JobPayload)
    (store : List AppDoc) (r : AppDoc)
    (h : (createApplication today now uuid body store).result = .created r) :
    companyOrPositionPresent r = true := by
  unfold createApplication at h
  cases hv : validateJobData today body with
  | error msg =>
    rw [hv] at h
    exact absurd h (by simp)
  | ok jd =>
    rw [hv] at h
    dsimp only at h
    cases hf : findDuplicate jd store with
    | none =>
      rw [hf] at h
      exact absurd h (by simp)
    | some w =>
      cases w with
      | some d =>
        rw [hf] at h
        exact absurd h (by simp)
      | none =>
        rw [hf] at h
        dsimp only at h
        have hr : newApplicationDoc uuid now jd = r := by
          have := h
          simpa using this
        subst hr
        have hguard := validateJobData_ok_guard today body jd hv
        unfold companyOrPositionPresent newApplicationDoc
        dsimp only
        simp only [Option.getD_some]
        cases hc : (jd.company == "") with
        | false => rfl
        | true =>
          cases hp : (jd.position == "") with
          | false => simp
          | true =>
            rw [hc, hp] at hguard
            exact absurd hguard (by simp)

/-- Witness for the amended Claim C3 at a concrete created record. -/
theorem create_inserts_only_invariant_records_witness :
    companyOrPositionPresent
      (newApplicationDoc "uuid-w3" "2024-03-06T00:00:00.000Z" jdAcme) = true :=
  create_inserts_only_invariant_records "2024-03-06" "2024-03-06T00:00:00.000Z" "uuid-w3"
    payloadAcme [] (newApplicationDoc "uuid-w3" "2024-03-06T00:00:00.000Z" jdAcme) (by decide)

/-- Claim C4, counterexample: the duplicate query is not the specified
case-insensitive literal rule.  A candidate company "A+" matches the stored
company "AA" (the spliced quantifier repeats the letter), although the rule
says they differ; a candidate with an empty jobUrl does not match a stored
record lacking the jobUrl field, although the rule counts both as
absent-and-equal; and a stored company ending in a newline is matched by
the plain candidate text, although the rule says they differ (the PCRE
dollar also matches before a terminating newline). -/
theorem duplicate_query_not_literal_cex :
    (duplicateQueryDecides sjAplus docAA = some true ∧
      specIdentityDuplicate (some sjAplus.company) (some sjAplus.position)
        (some sjAplus.jobUrl) docAA.company docAA.position docAA.jobUrl = false) ∧
    (duplicateQueryDecides sjB docBnoUrl = some false ∧
      specIdentityDuplicate (some sjB.company) (some sjB.position)
        (some sjB.jobUrl) docBnoUrl.company docBnoUrl.position docBnoUrl.jobUrl = true) ∧
    (duplicateQueryDecides sjAcme docAcmeNl = some true ∧
      specIdentityDuplicate (some sjAcme.company) (some sjAcme.position)
        (some sjAcme.jobUrl) docAcmeNl.company docAcmeNl.position docAcmeNl.jobUrl = false) := by
  decide

/-- Claim C4, amended: restricted to candidates whose company and position
contain only letters, digits and spaces, the duplicate query decides
exactly: on company and on position, case-insensitive equality of the
present stored field against the candidate text, or against the candidate
text followed by one terminating newline (the PCRE dollar of the query
engine also matches before a trailing newline of the stored text); and
equality of a present stored jobUrl against the candidate string — a stored
record with an absent jobUrl is never matched, even by a candidate whose
jobUrl is empty. -/
theorem duplicate_query_literal_rule (jd : SanitizedJob) (d : AppDoc)
    (hc : regexSafe jd.company = true) (hp : regexSafe jd.position = true) :
    duplicateQueryDecides jd d =
      some (ciEqOrTrailingNewline d.company jd.company &&
        ciEqOrTrailingNewline d.position jd.position &&
        (d.jobUrl == some jd.jobUrl)) := by
  unfold duplicateQueryDecides
  rw [regexCompile_literal jd.company hc, regexCompile_literal jd.position hp]
  dsimp only
  rw [duplicateDocMatches_literal]

/-- Witness for the amended Claim C4 at a concrete candidate and record. -/
theorem duplicate_query_literal_rule_witness :
    duplicateQueryDecides jdAcme docAcmeCi =
      some (ciEqOrTrailingNewline docAcmeCi.company jdAcme.company &&
        ciEqOrTrailingNewline docAcmeCi.position jdAcme.position &&
        (docAcmeCi.jobUrl == some jdAcme.jobUrl)) :=
  duplicate_query_literal_rule jdAcme docAcmeCi (by decide) (by decide)

/-- Claim C5, counterexample: a payload that identity-duplicates a stored
record under the specified rule is not rejected when the text defeats the
spliced pattern — the duplicate is inserted (store grows, a broadcast is
emitted) instead of drawing the 409 conflict. -/
theorem create_misses_duplicate_cex :
    specIdentityDuplicate (some "A+") (some "Engineer") (some "")
      docAplusStored.company docAplusStored.position docAplusStored.jobUrl = true ∧
    (createApplication "2024-03-07" "2024-03-07T00:00:00.000Z" "uuid-5"
        payloadAplus [docAplusStored]).result ≠ .conflict ∧
    (createApplication "2024-03-07" "2024-03-07T00:00:00.000Z" "uuid-5"
        payloadAplus [docAplusStored]).store.length = 2 ∧
    (createApplication "2024-03-07" "2024-03-07T00:00:00.000Z" "uuid-5"
        payloadAplus [docAplusStored]).events ≠ [] := by
  decide

/-- Claim C5, amended: when the validated candidate has regex-safe company
and position and some stored record matches it case-insensitively with a
present equal jobUrl, create answers with the 409 conflict — a response
distinct from the 500 of validation and internal failures — and performs no
insert and no broadcast. -/
theorem create_conflict_on_safe_duplicate (today now uuid : String) (body : JobPayload)
    (store : List AppDoc) (jd : SanitizedJob) (d : AppDoc)
    (hv : validateJobData today body = .ok jd)
    (hc : regexSafe jd.company = true) (hp : regexSafe jd.position = true)
    (hd : d ∈ store)
    (hdc : ciEqOptStr d.company jd.company = true)
    (hdp : ciEqOptStr d.position jd.position = true)
    (hdu : d.jobUrl = some jd.jobUrl) :
    (createApplication today now uuid body store).result = .conflict ∧
    (createApplication today now uuid body store).store = store ∧
    (createApplication today now uuid body store).events = [] := by
  have hfd := findDuplicate_literal jd store hc hp
  have hsome : (store.find? (fun d2 =>
      ciEqOrTrailingNewline d2.company jd.company &&
        ciEqOrTrailingNewline d2.position jd.position &&
        (d2.jobUrl == some jd.jobUrl))).isSome = true := by
    rw [List.find?_isSome]
    refine ⟨d, hd, ?_⟩
    rw [ciEqOrTrailingNewline_of_ciEq d.company jd.company hdc,
      ciEqOrTrailingNewline_of_ciEq d.position jd.position hdp, hdu]
    simp
  obtain ⟨w, hw⟩ := Option.isSome_iff_exists.mp hsome
  unfold createApplication
  rw [hv]
  dsimp only
  rw [hfd, hw]
  exact ⟨rfl, rfl, rfl⟩

/-- Witness for the amended Claim C5 at a concrete duplicate pair. -/
theorem create_conflict_on_safe_duplicate_witness :
    (createApplication "2024-03-06" "2024-03-08T00:00:00.000Z" "uuid-6"
        payloadAcme [docAcmeCi]).result = .conflict ∧
    (createApplication "2024-03-06" "2024-03-08T00:00:00.000Z" "uuid-6"
        payloadAcme [docAcmeCi]).store = [docAcmeCi] ∧
    (createApplication "2024-03-06" "2024-03-08T00:00:00.000Z" "uuid-6"
        payloadAcme [docAcmeCi]).events = [] :=
  create_conflict_on_safe_duplicate "2024-03-06" "2024-03-08T00:00:00.000Z" "uuid-6"
    payloadAcme [docAcmeCi] jdAcme docAcmeCi (by rfl) (by decide) (by decide)
    (by decide) (by decide) (by decide) (by decide)

/-- Claim C10: the duplicate query splices unescaped text into the
patterns.  A company "A+" matches the stored company "AA", so a payload that
is not an identity-duplicate under the specified rule is rejected as a
conflict; and a company "(" makes the pattern invalid, so create fails with
the internal error and inserts nothing. -/
theorem create_duplicate_check_regex_injection :
    (specIdentityDuplicate (some "A+") (some "Engineer") (some "")
        docAA.company docAA.position docAA.jobUrl = false ∧
      (createApplication "2024-01-02" "2024-01-02T00:00:00.000Z" "uuid-1"
          payloadAplus [docAA]).result = .conflict ∧
      (createApplication "2024-01-02" "2024-01-02T00:00:00.000Z" "uuid-1"
          payloadAplus [docAA]).store = [docAA]) ∧
    ((createApplication "2024-01-02" "2024-01-02T00:00:00.000Z" "uuid-1"
          { company := some "(", position := some "Engineer", jobUrl := some "" }
          [docAA]).result = .serverFailure ∧
      (createApplication "2024-01-02" "2024-01-02T00:00:00.000Z" "uuid-1"
          { company := some "(", position := some "Engineer", jobUrl := some "" }
          [docAA]).store = [docAA]) := by
  decide

/-- Claim C7: for every input payload, validation fails exactly when the
trimmed company and the trimmed position are both empty; an accepted record
carries the body status, defaulting to "Applied" when the body status is
absent or empty — in particular a payload with only the position set is
accepted. -/
theorem validateJobData_rejects_iff_both_blank (today : String) (p : JobPayload) :
    ((validateJobData today p).isOk = true ↔
      ¬(jsTrim (p.company.getD "") = "" ∧ jsTrim (p.position.getD "") = "")) ∧
    (validateJobData today p).toOption.map SanitizedJob.status =
      (if (validateJobData today p).isOk = true
       then some (if p.status.getD "" = "" then "Applied" else p.status.getD "")
       else none) := by
  unfold validateJobData
  dsimp only
  by_cases hg : (jsTrim (p.company.getD "") == "" && jsTrim (p.position.getD "") == "") = true
  · rw [if_pos hg]
    simp only [Bool.and_eq_true, beq_iff_eq] at hg
    constructor
    · simp [Except.isOk, Except.toBool, hg]
    · simp [Except.isOk, Except.toBool, Except.toOption]
  · rw [if_neg hg]
    simp only [Bool.and_eq_true, beq_iff_eq, not_and] at hg
    constructor
    · constructor
      · intro _ hcon
        exact hg hcon.1 hcon.2
      · intro _
        simp [Except.isOk, Except.toBool]
    · simp only [Except.isOk, Except.toBool, Except.toOption, Option.map_some]
      cases hst : p.status with
      | none => simp
      | some st =>
        by_cases hse : st = ""
        · subst hse
          simp
        · simp [hse]

/-- Claim C8, counterexample: the normalizer is not idempotent — a bullet
gains one extra interior space on each pass, as the bullet-spacing step runs
again on its own output. -/
theorem formatJobDescription_not_idempotent_cex :
    formatJobDescription "•x" = "• x" ∧
    formatJobDescription (formatJobDescription "•x") = "•  x" := by
  decide

/-- Claim C8, amended: empty input yields empty output, but the normalizer
is not idempotent in general (re-normalizing text containing a bullet
changes it). -/
theorem formatJobDescription_empty_and_not_idempotent :
    formatJobDescription "" = "" ∧
    formatJobDescription (formatJobDescription "•x") ≠ formatJobDescription "•x" := by
  decide

/-- Claim C9, counterexample: the section-header pattern has no word
boundary, so a word merely containing a keyword is split by an inserted
break (and re-capitalized after it). -/
theorem formatJobDescription_splits_roundabout_cex :
    formatJobDescription "roundabout" = "round\n\nAbout" := by
  decide

/-- Claim C9, amended: the break is inserted before every case-insensitive
occurrence of a section keyword as a plain substring, including inside
larger words. -/
theorem formatJobDescription_splits_substring_keywords :
    formatJobDescription "myskills" = "my\n\nSkills" ∧
    formatJobDescription "roundabouts" = "round\n\nAbouts" := by
  decide

end JobTracker
